import Mathlib

/-!
Shallow embedding of the conversational memory subsystem
(`src/ai_agent/memory/{short_term,long_term,manager}.py` and the `Memory`
model from `src/ai_agent/models.py`).

Python objects are mutable and shared by reference: `MemoryManager.store_interaction`
hands the *same* `Memory` object to both tiers, and `LongTermMemory.store` /
`retrieve` assign `memory.content` in place.  To be faithful to this aliasing
behaviour the embedding threads an explicit heap: a `Heap` is a list of
`Memory` values and a reference is an index into it.  All operations take and
return the heap explicitly; an operation that raises a Python exception is
modelled with `Except`, returning the (unchanged) state alongside.

Numeric values (`embedding` entries, timestamps) are modelled with exact
rationals; timestamps are in seconds and `timedelta(days = d)` is `86400 * d`
seconds.
-/

/-- The `Memory` pydantic model (`models.py`): `metadata` is never interpreted
by the memory subsystem and is omitted. -/
structure Memory where
  id : String
  session_id : String
  content : String
  embedding : List ℚ
  timestamp : ℚ
  is_sensitive : Bool
deriving DecidableEq, Inhabited

/-- The mutable heap of `Memory` objects; a Python object reference is an
index into this list. -/
abbrev Heap := List Memory

/-- Dereference: read the object a reference points to. -/
def hread (h : Heap) (r : ℕ) : Memory := h.getD r default

/-- Modelled from the spec: the `cryptography.fernet.Fernet` cipher used by
`LongTermMemory` is not part of the repository.  Per §4.2 of the spec it is an
authenticated symmetric scheme: `encrypt` produces an opaque token (and may
fail with `EncryptionError`), `decrypt` recovers the plaintext of a valid
token and fails (`DecryptionError` / `InvalidToken`) on anything else.
Failure is modelled by `Option`. -/
structure Fernet where
  encrypt : String → Option String
  decrypt : String → Option String

/-- Modelled from the spec: decrypting a token produced by `encrypt` yields
the original plaintext (round-trip of an authenticated cipher). -/
def Fernet.RoundTrip (c : Fernet) : Prop :=
  ∀ p ct, c.encrypt p = some ct → c.decrypt ct = some p

/-- Modelled from the spec: a ciphertext token ("ciphertext plus nonce/tag
material") is never equal to its plaintext. -/
def Fernet.Opaque (c : Fernet) : Prop :=
  ∀ p ct, c.encrypt p = some ct → ct ≠ p

/-- A concrete cipher satisfying the `Fernet` model, used to evaluate the
operations on closed inputs: a token is the plaintext with a `'#'` sentinel
prepended, and decryption rejects any string that does not carry the
sentinel. -/
def tagCipher : Fernet where
  encrypt p := some ⟨'#' :: p.data⟩
  decrypt s :=
    match s.data with
    | '#' :: rest => some ⟨rest⟩
    | _ => none

theorem tagCipher_roundTrip : tagCipher.RoundTrip := by
  intro p ct h
  simp only [tagCipher] at h
  cases h
  rfl

theorem tagCipher_opaque : tagCipher.Opaque := by
  intro p ct h hct
  simp only [tagCipher, Option.some.injEq] at h
  subst h
  have := congrArg (fun s => s.data.length) hct
  simp at this

/-! ### Python `dict` (insertion-ordered) keyed by `Memory.id` -/

/-- `dict.get`: first binding of a key, if any. -/
def dictGet (k : String) : List (String × ℕ) → Option ℕ
  | [] => none
  | p :: ps => if p.1 = k then some p.2 else dictGet k ps

/-- `d[k] = v` with CPython ordering semantics: an existing key keeps its
position, a new key is appended. -/
def dictInsert (k : String) (v : ℕ) (l : List (String × ℕ)) : List (String × ℕ) :=
  if (dictGet k l).isSome then
    l.map (fun p => if p.1 = k then (k, v) else p)
  else
    l ++ [(k, v)]

theorem dictGet_insert_self (k : String) (v : ℕ) (l : List (String × ℕ)) :
    dictGet k (dictInsert k v l) = some v := by
  unfold dictInsert
  split
  case isTrue hs =>
    induction l with
    | nil => simp [dictGet] at hs
    | cons p ps ih =>
      by_cases hp : p.1 = k
      · simp [dictGet, hp]
      · simp only [dictGet, hp, if_false] at hs
        simp only [List.map_cons, if_neg hp, dictGet, hp, if_false]
        exact ih hs
  case isFalse hs =>
    induction l with
    | nil => simp [dictGet]
    | cons p ps ih =>
      by_cases hp : p.1 = k
      · exact absurd (by simp [dictGet, hp]) hs
      · simp only [dictGet, hp, if_false] at hs
        simp only [List.cons_append, dictGet, hp, if_false]
        exact ih hs

/-! ### Cosine similarity (`LongTermMemory._cosine_similarity`)

The source computes `dot / (sqrt sa * sqrt sb)` on floats, guarding length
mismatch and zero magnitudes with an early `0.0`.  With exact arithmetic the
value is `num / sqrt den` with `num = dot` and `den = sa * sb`
(`sqrt sa * sqrt sb = sqrt (sa * sb)` for nonnegative operands); a `Score`
carries that exact representation together with positivity of `den`, and
`Score.leb` decides the comparison `num₁ / sqrt den₁ ≤ num₂ / sqrt den₂`
(proved against the real-valued semantics in `Score.leb_iff`). -/

/-- Exact representation of a similarity value `num / Real.sqrt den`. -/
structure Score where
  num : ℚ
  den : ℚ
  den_pos : 0 < den

/-- The real value a `Score` stands for, as a binary comparison (kept as a
`Prop` so the development stays executable). -/
def Score.val_le (x y : Score) : Prop :=
  (x.num : ℝ) / Real.sqrt (x.den : ℝ) ≤ (y.num : ℝ) / Real.sqrt (y.den : ℝ)

/-- The real value of a `Score` is zero (i.e. its numerator is zero). -/
def Score.val_zero (x : Score) : Prop :=
  (x.num : ℝ) / Real.sqrt (x.den : ℝ) = 0

/-- Decidable comparison of two similarity values: compare signs of the
numerators, then squares (valid because the denominators are positive). -/
def Score.leb (x y : Score) : Bool :=
  if x.num ≤ 0 then
    (if 0 ≤ y.num then true else decide (y.num ^ 2 * x.den ≤ x.num ^ 2 * y.den))
  else
    (if y.num ≤ 0 then false else decide (x.num ^ 2 * y.den ≤ y.num ^ 2 * x.den))

def dotProduct (a b : List ℚ) : ℚ := ((a.zip b).map (fun p => p.1 * p.2)).sum

def sumSquares (a : List ℚ) : ℚ := (a.map (fun x => x * x)).sum

theorem sumSquares_nonneg (a : List ℚ) : 0 ≤ sumSquares a := by
  unfold sumSquares
  induction a with
  | nil => simp
  | cons x xs ih =>
    simp only [List.map_cons, List.sum_cons]
    have := mul_self_nonneg x
    linarith

/-- `LongTermMemory._cosine_similarity`: length mismatch and zero-magnitude
vectors score `0.0`; otherwise the value is
`dot / (magnitude_a * magnitude_b)`, represented exactly. -/
def cosine_similarity (a b : List ℚ) : Score :=
  if a.length ≠ b.length then ⟨0, 1, one_pos⟩
  else
    let sa := sumSquares a
    let sb := sumSquares b
    if h : sa = 0 ∨ sb = 0 then ⟨0, 1, one_pos⟩
    else
      ⟨dotProduct a b, sa * sb,
        mul_pos (lt_of_le_of_ne (sumSquares_nonneg a) (Ne.symm (not_or.mp h).1))
          (lt_of_le_of_ne (sumSquares_nonneg b) (Ne.symm (not_or.mp h).2))⟩

/-! ### The long-term tier (`LongTermMemory`) -/

/-- `LongTermMemory`: an insertion-ordered dict from `id` to the stored
object (a heap reference) and the optional cipher. -/
structure LongTermMemory where
  memories : List (String × ℕ)
  cipher : Option Fernet

/-- `LongTermMemory.store`.  Mirrors the source exactly: when the record is
sensitive and a cipher is configured the object's `content` is overwritten
**in place** with the ciphertext (a heap write at `r`), then the dict maps
`memory.id` to the same reference `r`.  A cipher failure propagates and
leaves every piece of state unchanged. -/
def LongTermMemory.store (st : LongTermMemory) (h : Heap) (r : ℕ) :
    Except Unit (LongTermMemory × Heap) :=
  let m := hread h r
  if m.is_sensitive then
    match st.cipher with
    | some c =>
      match c.encrypt m.content with
      | none => .error ()
      | some ct =>
        .ok ({ st with memories := dictInsert m.id r st.memories },
             h.set r { m with content := ct })
    | none => .ok ({ st with memories := dictInsert m.id r st.memories }, h)
  else
    .ok ({ st with memories := dictInsert m.id r st.memories }, h)

/-- `LongTermMemory.retrieve`.  Looks the id up; when the found record is
sensitive and a cipher is configured its `content` is overwritten **in
place** with the decryption (the source defect: the canonical stored object
is mutated).  A decryption failure (`InvalidToken`) propagates. -/
def LongTermMemory.retrieve (st : LongTermMemory) (h : Heap) (mid : String) :
    Except Unit (Heap × Option ℕ) :=
  match dictGet mid st.memories with
  | none => .ok (h, none)
  | some r =>
    let m := hread h r
    if m.is_sensitive then
      match st.cipher with
      | some c =>
        match c.decrypt m.content with
        | none => .error ()
        | some pt => .ok (h.set r { m with content := pt }, some r)
      | none => .ok (h, some r)
    else
      .ok (h, some r)

/-- The stored records in dict order (`self.memories.values()`). -/
def LongTermMemory.objects (st : LongTermMemory) (h : Heap) : List Memory :=
  st.memories.map (fun p => hread h p.2)

/-- The `results` list built by `LongTermMemory.search`: one
`(similarity, memory)` pair per stored record with a truthy (nonempty)
embedding, in dict order. -/
def LongTermMemory.searchCandidates (st : LongTermMemory) (h : Heap) (q : List ℚ) :
    List (Score × Memory) :=
  ((st.objects h).filter (fun m => !m.embedding.isEmpty)).map
    (fun m => (cosine_similarity q m.embedding, m))

/-- Ranking relation of `results.sort(reverse := True, key := similarity)`:
`x` precedes-or-ties `y` when `x`'s similarity is at least `y`'s. -/
def rankLE (x y : Score × Memory) : Prop := Score.leb y.1 x.1 = true

instance : DecidableRel rankLE := fun _ _ => decEq _ _

/-- The sorted `results` list.  Python's `list.sort` is a stable sort; the
embedding uses the stable `List.insertionSort`, which produces the same
list as any stable sort for a total transitive relation. -/
def LongTermMemory.searchRanked (st : LongTermMemory) (h : Heap) (q : List ℚ) :
    List (Score × Memory) :=
  (st.searchCandidates h q).insertionSort rankLE

/-- `LongTermMemory.search`: the first `limit` ranked records, memories only. -/
def LongTermMemory.search (st : LongTermMemory) (h : Heap) (q : List ℚ) (limit : ℕ) :
    List Memory :=
  ((st.searchRanked h q).take limit).map Prod.snd

/-- `LongTermMemory.cleanup_old`: drop every record strictly older than
`now - retention_days` days and report how many were listed for removal. -/
def LongTermMemory.cleanup_old (st : LongTermMemory) (h : Heap) (now : ℚ)
    (retention_days : ℕ) : LongTermMemory × ℕ :=
  let cutoff := now - 86400 * (retention_days : ℚ)
  let to_remove := st.memories.filter (fun p => decide ((hread h p.2).timestamp < cutoff))
  ({ st with memories :=
      st.memories.filter (fun p => !decide ((hread h p.2).timestamp < cutoff)) },
   to_remove.length)

/-! ### The short-term tier (`ShortTermMemory`) -/

/-- `ShortTermMemory`: a `deque(maxlen = max_size)` of object references in
insertion order. -/
structure ShortTermMemory where
  max_size : ℕ
  memories : List ℕ
deriving DecidableEq

/-- `deque.append` on a deque with `maxlen`: append, keeping only the last
`max_size` elements (when the deque is full the oldest element is discarded
before the new one lands). -/
def ShortTermMemory.add (st : ShortTermMemory) (r : ℕ) : ShortTermMemory :=
  let l := st.memories ++ [r]
  { st with memories := l.drop (l.length - st.max_size) }

/-- `ShortTermMemory.get_recent`: `list(self.memories)[-limit:]`.  For
`limit = 0` the Python slice `[-0:]` is `[0:]`, i.e. the whole buffer. -/
def ShortTermMemory.get_recent (st : ShortTermMemory) (limit : ℕ) : List ℕ :=
  if limit = 0 then st.memories
  else st.memories.drop (st.memories.length - limit)

/-- `ShortTermMemory.get_by_session`: buffered records whose `session_id`
matches, in insertion order. -/
def ShortTermMemory.get_by_session (st : ShortTermMemory) (h : Heap)
    (sid : String) : List ℕ :=
  st.memories.filter (fun r => decide ((hread h r).session_id = sid))

/-! ### The coordinator (`MemoryManager`) -/

/-- `MemoryManager`: both tiers; constructed with the default short-term
capacity 100 and an empty long-term dict. -/
structure MemoryManager where
  short_term : ShortTermMemory
  long_term : LongTermMemory

/-- `MemoryManager.__init__`. -/
def MemoryManager.init (key : Option Fernet) : MemoryManager :=
  ⟨⟨100, []⟩, ⟨[], key⟩⟩

/-- `MemoryManager.store_interaction`: add the *same* reference to the
short-term buffer, then store it long-term.  When the long-term write raises,
the exception propagates but the short-term write stays (the buffer append
already happened); on success both tiers are updated. -/
def MemoryManager.store_interaction (mm : MemoryManager) (h : Heap) (r : ℕ) :
    Except Unit Unit × MemoryManager × Heap :=
  let short' := mm.short_term.add r
  match mm.long_term.store h r with
  | .error _ => (.error (), { mm with short_term := short' }, h)
  | .ok (lt', h') => (.ok (), ⟨short', lt'⟩, h')

/-- `MemoryManager.get_conversation_history`: delegates to the buffer. -/
def MemoryManager.get_conversation_history (mm : MemoryManager) (h : Heap)
    (sid : String) : List ℕ :=
  mm.short_term.get_by_session h sid

/-- `MemoryManager.retrieve_context`: delegates to long-term search. -/
def MemoryManager.retrieve_context (mm : MemoryManager) (h : Heap)
    (q : List ℚ) (limit : ℕ) : List Memory :=
  mm.long_term.search h q limit

/-! ### `Score.leb` agrees with the real-valued comparison -/

theorem Score.leb_iff (x y : Score) : x.leb y = true ↔ x.val_le y := by
  obtain ⟨a, p, hp⟩ := x
  obtain ⟨b, q, hq⟩ := y
  have hp' : (0 : ℝ) < (p : ℝ) := by exact_mod_cast hp
  have hq' : (0 : ℝ) < (q : ℝ) := by exact_mod_cast hq
  have hsp : 0 < Real.sqrt (p : ℝ) := Real.sqrt_pos.mpr hp'
  have hsq : 0 < Real.sqrt (q : ℝ) := Real.sqrt_pos.mpr hq'
  have hsp2 : Real.sqrt (p : ℝ) ^ 2 = (p : ℝ) := Real.sq_sqrt hp'.le
  have hsq2 : Real.sqrt (q : ℝ) ^ 2 = (q : ℝ) := Real.sq_sqrt hq'.le
  unfold Score.leb Score.val_le
  simp only
  rw [div_le_div_iff hsp hsq]
  split_ifs with ha hb hb
  · -- a ≤ 0 ≤ b
    have h1 : (a : ℝ) * Real.sqrt (q : ℝ) ≤ 0 :=
      mul_nonpos_of_nonpos_of_nonneg (by exact_mod_cast ha) hsq.le
    have h2 : (0 : ℝ) ≤ (b : ℝ) * Real.sqrt (p : ℝ) :=
      mul_nonneg (by exact_mod_cast hb) hsp.le
    simpa using le_trans h1 h2
  · -- a ≤ 0, b < 0
    have ha' : (a : ℝ) ≤ 0 := by exact_mod_cast ha
    have hb' : (b : ℝ) < 0 := by exact_mod_cast (lt_of_not_le hb)
    rw [decide_eq_true_eq]
    have hA : (a : ℝ) * Real.sqrt (q : ℝ) ≤ 0 :=
      mul_nonpos_of_nonpos_of_nonneg ha' hsq.le
    have hB : (b : ℝ) * Real.sqrt (p : ℝ) < 0 := mul_neg_of_neg_of_pos hb' hsp
    constructor
    · intro hle
      have hleR : (b : ℝ) ^ 2 * (p : ℝ) ≤ (a : ℝ) ^ 2 * (q : ℝ) := by exact_mod_cast hle
      have hsqle : ((b : ℝ) * Real.sqrt (p : ℝ)) ^ 2 ≤ ((a : ℝ) * Real.sqrt (q : ℝ)) ^ 2 := by
        rw [mul_pow, mul_pow, hsp2, hsq2]
        exact hleR
      nlinarith [hsqle, hA, hB]
    · intro hle
      have hsqle : ((b : ℝ) * Real.sqrt (p : ℝ)) ^ 2 ≤ ((a : ℝ) * Real.sqrt (q : ℝ)) ^ 2 := by
        nlinarith [hle, hA, hB]
      rw [mul_pow, mul_pow, hsp2, hsq2] at hsqle
      exact_mod_cast hsqle
  · -- 0 < a, b ≤ 0
    have ha' : (0 : ℝ) < (a : ℝ) := by exact_mod_cast lt_of_not_le ha
    have hb' : (b : ℝ) ≤ 0 := by exact_mod_cast hb
    have h1 : (b : ℝ) * Real.sqrt (p : ℝ) ≤ 0 :=
      mul_nonpos_of_nonpos_of_nonneg hb' hsp.le
    have h2 : (0 : ℝ) < (a : ℝ) * Real.sqrt (q : ℝ) := mul_pos ha' hsq
    simp only [false_iff, not_le]
    exact lt_of_le_of_lt h1 h2
  · -- 0 < a, 0 < b
    have ha' : (0 : ℝ) < (a : ℝ) := by exact_mod_cast lt_of_not_le ha
    have hb' : (0 : ℝ) < (b : ℝ) := by exact_mod_cast lt_of_not_le hb
    rw [decide_eq_true_eq]
    constructor
    · intro hle
      have hleR : (a : ℝ) ^ 2 * (q : ℝ) ≤ (b : ℝ) ^ 2 * (p : ℝ) := by exact_mod_cast hle
      have h1 : 0 ≤ (b : ℝ) * Real.sqrt (p : ℝ) := (mul_pos hb' hsp).le
      refine le_of_pow_le_pow_left two_ne_zero h1 ?_
      rw [mul_pow, mul_pow, hsp2, hsq2]
      exact hleR
    · intro hle
      have h1 : 0 ≤ (a : ℝ) * Real.sqrt (q : ℝ) := (mul_pos ha' hsq).le
      have h3 : ((a : ℝ) * Real.sqrt (q : ℝ)) ^ 2 ≤ ((b : ℝ) * Real.sqrt (p : ℝ)) ^ 2 :=
        pow_le_pow_left h1 hle 2
      rw [mul_pow, mul_pow, hsp2, hsq2] at h3
      exact_mod_cast h3

theorem Score.leb_total (x y : Score) : x.leb y = true ∨ y.leb x = true := by
  rcases le_total ((x.num : ℝ) / Real.sqrt (x.den : ℝ))
      ((y.num : ℝ) / Real.sqrt (y.den : ℝ)) with h | h
  · exact Or.inl ((Score.leb_iff x y).mpr h)
  · exact Or.inr ((Score.leb_iff y x).mpr h)

theorem Score.leb_trans {x y z : Score} (hxy : x.leb y = true) (hyz : y.leb z = true) :
    x.leb z = true :=
  (Score.leb_iff x z).mpr (le_trans ((Score.leb_iff x y).mp hxy) ((Score.leb_iff y z).mp hyz))

instance : IsTotal (Score × Memory) rankLE :=
  ⟨fun x y => (Score.leb_total y.1 x.1).imp id id⟩

instance : IsTrans (Score × Memory) rankLE :=
  ⟨fun _ _ _ hxy hyz => Score.leb_trans hyz hxy⟩

/-! ### Heap and buffer helper lemmas -/

theorem hread_set_self (h : Heap) (r : ℕ) (m : Memory) (hr : r < h.length) :
    hread (h.set r m) r = m := by
  unfold hread
  rw [List.getD_eq_getElem?_getD, List.getElem?_set_self (by simpa using hr)]
  rfl

/-- The last `c` elements of a list (what a `deque(maxlen = c)` retains). -/
def lastN (c : ℕ) (l : List α) : List α := l.drop (l.length - c)

theorem lastN_length (c : ℕ) (l : List α) : (lastN c l).length = min c l.length := by
  unfold lastN
  rw [List.length_drop]
  omega

theorem lastN_lastN_append (c : ℕ) (a b : List α) :
    lastN c (lastN c a ++ b) = lastN c (a ++ b) := by
  unfold lastN
  rw [List.drop_append_eq_append_drop, List.drop_append_eq_append_drop, List.drop_drop]
  congr 1
  · congr 1
    simp only [List.length_append, List.length_drop]
    omega
  · congr 1
    simp only [List.length_append, List.length_drop]
    omega

theorem ShortTermMemory.add_memories (st : ShortTermMemory) (r : ℕ) :
    (st.add r).memories = lastN st.max_size (st.memories ++ [r]) := rfl

theorem ShortTermMemory.add_max_size (st : ShortTermMemory) (r : ℕ) :
    (st.add r).max_size = st.max_size := rfl

/-- Folding `add` over a batch of records keeps the last `max_size` of the
buffer contents followed by the batch. -/
theorem foldl_add_memories (rs : List ℕ) (st : ShortTermMemory)
    (hst : st.memories.length ≤ st.max_size) :
    (rs.foldl ShortTermMemory.add st).memories = lastN st.max_size (st.memories ++ rs) ∧
    (rs.foldl ShortTermMemory.add st).max_size = st.max_size := by
  induction rs generalizing st with
  | nil =>
    refine ⟨?_, rfl⟩
    rw [List.foldl_nil, List.append_nil]
    unfold lastN
    rw [Nat.sub_eq_zero_of_le hst, List.drop_zero]
  | cons r rs ih =>
    rw [List.foldl_cons]
    have hlen : (st.add r).memories.length ≤ (st.add r).max_size := by
      rw [ShortTermMemory.add_memories, ShortTermMemory.add_max_size, lastN_length]
      omega
    obtain ⟨h1, h2⟩ := ih (st.add r) hlen
    refine ⟨?_, by rw [h2, ShortTermMemory.add_max_size]⟩
    rw [h1, ShortTermMemory.add_max_size, ShortTermMemory.add_memories,
      lastN_lastN_append, List.append_assoc, List.singleton_append]

theorem mem_lastN_append_singleton {c : ℕ} (hc : 1 ≤ c) (l : List α) (r : α) :
    r ∈ lastN c (l ++ [r]) := by
  unfold lastN
  rw [List.drop_append_eq_append_drop]
  refine List.mem_append_right _ ?_
  have : (l ++ [r]).length - c - l.length = 0 := by
    rw [List.length_append]
    simp only [List.length_singleton]
    omega
  rw [this]
  simp

/-! ### Concrete states used to evaluate the operations on closed inputs -/

/-- A sensitive record, as in the spec scenario `{id : "m1", content : "secret"}`. -/
def exSensitive : Memory := ⟨"m1", "s1", "secret", [], 0, true⟩

/-- A non-sensitive record. -/
def exPlain : Memory := ⟨"m2", "s1", "hello", [], 0, false⟩

/-- An empty long-term store configured with the concrete cipher. -/
def exCipherLT : LongTermMemory := ⟨[], some tagCipher⟩

/-- A cipher whose encryption always fails (an `EncryptionError` on every
write), for exercising the dual-write failure path. -/
def failCipher : Fernet := ⟨fun _ => none, fun _ => none⟩

/-! ### The claims -/

/-- **C1**: the spec requires the sensitive read to be idempotent — the same
plaintext on every retrieve, with the canonical stored ciphertext untouched.
The source `LongTermMemory.retrieve` assigns the decryption to
`memory.content` in place, so on the concrete input below the first retrieve
returns the plaintext but rewrites the stored record from ciphertext
`"#secret"` to plaintext `"secret"`, and the second retrieve of the same id
attempts to decrypt the plaintext and raises (`InvalidToken`) instead of
returning the same plaintext.  This evaluates the code at that failing
input. -/
theorem C1_sensitive_read_not_idempotent :
    exCipherLT.store [exSensitive] 0 =
      .ok (⟨[("m1", 0)], some tagCipher⟩, [{ exSensitive with content := "#secret" }]) ∧
    LongTermMemory.retrieve ⟨[("m1", 0)], some tagCipher⟩
      [{ exSensitive with content := "#secret" }] "m1" = .ok ([exSensitive], some 0) ∧
    hread [exSensitive] 0 ≠ hread [{ exSensitive with content := "#secret" }] 0 ∧
    LongTermMemory.retrieve ⟨[("m1", 0)], some tagCipher⟩ [exSensitive] "m1" = .error () :=
  ⟨rfl, rfl, by decide, rfl⟩

/-- **C2**: the spec requires the Recency Buffer's copy and the Durable
Store's copy of a stored record to be independent.  The source
`store_interaction` hands the *same* object to both tiers, so on the concrete
input below the Durable Store's in-place encryption is visible through the
short-term tier: after a successful `store_interaction` of a sensitive
record, the record reachable from the short-term buffer (and returned by
`get_conversation_history`) carries the ciphertext, not the plaintext that
was buffered.  This evaluates the code at that failing input. -/
theorem C2_tiers_share_one_object :
    MemoryManager.store_interaction (MemoryManager.init (some tagCipher)) [exSensitive] 0 =
      (.ok (), ⟨⟨100, [0]⟩, ⟨[("m1", 0)], some tagCipher⟩⟩,
        [{ exSensitive with content := "#secret" }]) ∧
    MemoryManager.get_conversation_history ⟨⟨100, [0]⟩, ⟨[("m1", 0)], some tagCipher⟩⟩
      [{ exSensitive with content := "#secret" }] "s1" = [0] ∧
    (hread [{ exSensitive with content := "#secret" }] 0).content ≠ exSensitive.content :=
  ⟨rfl, rfl, by decide⟩

/-- **C4**: starting from an empty Recency Buffer of capacity `c`, adding
`n > c` records leaves exactly the last `c` of them, in their original
relative order, and the buffer holds exactly `c` records.  (`add` is a total
function of the model: it never fails.) -/
theorem C4_bounded_eviction (c : ℕ) (rs : List ℕ) (hc : c < rs.length) :
    (rs.foldl ShortTermMemory.add ⟨c, []⟩).memories = rs.drop (rs.length - c) ∧
    (rs.foldl ShortTermMemory.add ⟨c, []⟩).memories.length = c := by
  obtain ⟨h1, -⟩ := foldl_add_memories rs ⟨c, []⟩ (by simp)
  simp only [List.nil_append] at h1
  refine ⟨h1, ?_⟩
  rw [h1, lastN_length]
  omega

/-- Witness for C4: the spec scenario — capacity 3, insert 4 records, the
buffer afterwards holds the last three in order. -/
theorem C4_bounded_eviction_witness :
    3 < ([10, 11, 12, 13] : List ℕ).length ∧
    (([10, 11, 12, 13] : List ℕ).foldl ShortTermMemory.add ⟨3, []⟩).memories =
        ([10, 11, 12, 13] : List ℕ).drop (([10, 11, 12, 13] : List ℕ).length - 3) ∧
    (([10, 11, 12, 13] : List ℕ).foldl ShortTermMemory.add ⟨3, []⟩).memories.length = 3 :=
  ⟨by decide, C4_bounded_eviction 3 [10, 11, 12, 13] (by decide)⟩

/-- **C3**: round-trip.  For a non-sensitive record, `store` then `retrieve`
of its id succeeds, touches no record, and hands back the very record stored
(content identical to the input).  For a sensitive record with a configured
cipher (whose encryption succeeds, and which round-trips and produces
ciphertext distinct from plaintext, as the spec's cipher does), `store`
leaves ciphertext `ct ≠` plaintext in the store and `retrieve` returns the
record with the original plaintext content. -/
theorem C3_store_retrieve_roundtrip (st : LongTermMemory) (h : Heap) (r : ℕ)
    (hr : r < h.length) :
    ((hread h r).is_sensitive = false →
      st.store h r =
        .ok ({ st with memories := dictInsert (hread h r).id r st.memories }, h) ∧
      LongTermMemory.retrieve
          { st with memories := dictInsert (hread h r).id r st.memories } h
          (hread h r).id = .ok (h, some r)) ∧
    (∀ c ct, st.cipher = some c → (hread h r).is_sensitive = true →
      c.encrypt (hread h r).content = some ct → c.RoundTrip → c.Opaque →
      ∃ st' h', st.store h r = .ok (st', h') ∧
        (hread h' r).content = ct ∧ ct ≠ (hread h r).content ∧
        ∃ h'', st'.retrieve h' (hread h r).id = .ok (h'', some r) ∧
          (hread h'' r).content = (hread h r).content) := by
  constructor
  · intro hsens
    constructor
    · simp [LongTermMemory.store, hsens]
    · simp [LongTermMemory.retrieve, dictGet_insert_self, hsens]
  · intro c ct hc hsens henc hrt hop
    refine ⟨{ st with memories := dictInsert (hread h r).id r st.memories },
      h.set r { hread h r with content := ct }, ?_, ?_, hop _ _ henc, ?_⟩
    · simp [LongTermMemory.store, hsens, hc, henc]
    · rw [hread_set_self h r _ hr]
    · refine ⟨(h.set r { hread h r with content := ct }).set r
          { hread h r with content := (hread h r).content }, ?_, ?_⟩
      · simp only [LongTermMemory.retrieve, dictGet_insert_self,
          hread_set_self h r _ hr, hsens, hc, hrt _ _ henc, if_true]
      · rw [hread_set_self _ r _ (by simpa using hr)]

/-- Witness for C3: a concrete non-sensitive round-trip and a concrete
sensitive round-trip through the model cipher. -/
theorem C3_store_retrieve_roundtrip_witness :
    (LongTermMemory.store ⟨[], none⟩ [exPlain] 0 =
        .ok (⟨dictInsert (hread [exPlain] 0).id 0 [], none⟩, [exPlain]) ∧
      LongTermMemory.retrieve ⟨dictInsert (hread [exPlain] 0).id 0 [], none⟩ [exPlain]
        (hread [exPlain] 0).id = .ok ([exPlain], some 0)) ∧
    (∃ st' h', exCipherLT.store [exSensitive] 0 = .ok (st', h') ∧
      (hread h' 0).content = "#secret" ∧ "#secret" ≠ (hread [exSensitive] 0).content ∧
      ∃ h'', st'.retrieve h' (hread [exSensitive] 0).id = .ok (h'', some 0) ∧
        (hread h'' 0).content = (hread [exSensitive] 0).content) :=
  ⟨(C3_store_retrieve_roundtrip ⟨[], none⟩ [exPlain] 0 (by decide)).1 rfl,
   (C3_store_retrieve_roundtrip exCipherLT [exSensitive] 0 (by decide)).2 tagCipher "#secret"
     rfl rfl rfl tagCipher_roundTrip tagCipher_opaque⟩

theorem mem_searchCandidates_fst {st : LongTermMemory} {h : Heap} {q : List ℚ}
    {x : Score × Memory} (hx : x ∈ st.searchCandidates h q) :
    x.1 = cosine_similarity q x.2.embedding := by
  unfold LongTermMemory.searchCandidates at hx
  obtain ⟨m, -, rfl⟩ := List.mem_map.mp hx
  rfl

/-- **C5**: `search` returns at most `limit` records; the returned records
are sorted by non-increasing real cosine similarity to the query; and ties
are broken by insertion order — a pair of candidates listed in store order
whose similarity values coincide keeps that relative order in the sorted
`results` list (of which `search` returns the `limit`-prefix). -/
theorem C5_search_ordering (st : LongTermMemory) (h : Heap) (q : List ℚ) (limit : ℕ) :
    (st.search h q limit).length ≤ limit ∧
    (st.search h q limit).Pairwise
      (fun m1 m2 => Score.val_le (cosine_similarity q m2.embedding)
        (cosine_similarity q m1.embedding)) ∧
    (∀ x y : Score × Memory, List.Sublist [x, y] (st.searchCandidates h q) →
      Score.val_le x.1 y.1 → Score.val_le y.1 x.1 →
      List.Sublist [x, y] (st.searchRanked h q)) := by
  refine ⟨?_, ?_, ?_⟩
  · unfold LongTermMemory.search
    rw [List.length_map, List.length_take]
    exact min_le_left _ _
  · unfold LongTermMemory.search
    rw [List.pairwise_map]
    have hsorted : (st.searchRanked h q).Pairwise rankLE :=
      List.sorted_insertionSort rankLE _
    have htake : ((st.searchRanked h q).take limit).Pairwise rankLE :=
      hsorted.sublist (List.take_sublist _ _)
    refine htake.imp_of_mem ?_
    intro a b ha hb hab
    have ha' : a ∈ st.searchCandidates h q :=
      (List.mem_insertionSort rankLE).mp (List.take_subset limit _ ha)
    have hb' : b ∈ st.searchCandidates h q :=
      (List.mem_insertionSort rankLE).mp (List.take_subset limit _ hb)
    have hv : Score.val_le b.1 a.1 := (Score.leb_iff b.1 a.1).mp hab
    rw [mem_searchCandidates_fst ha', mem_searchCandidates_fst hb'] at hv
    exact hv
  · intro x y hsub hxy hyx
    exact List.pair_sublist_insertionSort ((Score.leb_iff y.1 x.1).mpr hyx) hsub

/-- Records used by the closed search evaluations. -/
def exA : Memory := ⟨"a", "s1", "ca", [1], 0, false⟩

def exB : Memory := ⟨"b", "s1", "cb", [1], 0, false⟩

/-- Witness for C5: two records with identical embeddings (hence tied
similarity) stored in order `a`, `b`; the tie-break clause applies and keeps
them in insertion order inside the sorted list. -/
theorem C5_search_ordering_witness :
    List.Sublist
      [(cosine_similarity [1] exA.embedding, exA), (cosine_similarity [1] exB.embedding, exB)]
      (LongTermMemory.searchCandidates ⟨[("a", 0), ("b", 1)], none⟩ [exA, exB] [1]) ∧
    List.Sublist
      [(cosine_similarity [1] exA.embedding, exA), (cosine_similarity [1] exB.embedding, exB)]
      (LongTermMemory.searchRanked ⟨[("a", 0), ("b", 1)], none⟩ [exA, exB] [1]) :=
  have hsub : List.Sublist
      [(cosine_similarity [1] exA.embedding, exA), (cosine_similarity [1] exB.embedding, exB)]
      (LongTermMemory.searchCandidates ⟨[("a", 0), ("b", 1)], none⟩ [exA, exB] [1]) :=
    List.Sublist.refl _
  ⟨hsub,
    (C5_search_ordering ⟨[("a", 0), ("b", 1)], none⟩ [exA, exB] [1] 10).2.2
      (cosine_similarity [1] exA.embedding, exA) (cosine_similarity [1] exB.embedding, exB)
      hsub (le_refl _) (le_refl _)⟩

/-- A stored record whose embedding is empty. -/
def exEmptyEmb : Memory := ⟨"e", "s1", "ce", [], 0, false⟩

/-- A stored record whose embedding length differs from the query `[1]`. -/
def exMismatch : Memory := ⟨"x", "s1", "cx", [2, 3], 0, false⟩

/-- Counterexample to **C6** as stated: the claim says a stored record with
an empty embedding is assigned similarity `0.0` and can still appear in the
results when fewer than `limit` comparable candidates exist.  In the source,
`search` skips every record with a falsy (empty) embedding, so with a single
stored empty-embedding record and `limit = 10` the result is `[]` — the
record never appears. -/
theorem C6_counterexample :
    dictGet "e" [("e", 0)] = some 0 ∧
    (hread [exEmptyEmb] 0).embedding = [] ∧
    LongTermMemory.search ⟨[("e", 0)], none⟩ [exEmptyEmb] [1] 10 = [] :=
  ⟨rfl, rfl, rfl⟩

/-- **C6** (amended): records with an *empty* embedding are excluded from
`search` entirely (they can never appear in results); records with a
*nonempty* embedding whose length differs from the query's are assigned
similarity `0.0` (defined, not an error) and still appear when the store has
at most `limit` candidates; and cosine similarity involving a zero-magnitude
vector is `0.0`. -/
theorem C6_degenerate_scoring :
    (∀ (st : LongTermMemory) (h : Heap) (q : List ℚ) (limit : ℕ) (m : Memory),
      m ∈ st.search h q limit → m.embedding ≠ []) ∧
    (∀ q e : List ℚ, q.length ≠ e.length →
      (cosine_similarity q e).num = 0 ∧ Score.val_zero (cosine_similarity q e)) ∧
    (∀ (st : LongTermMemory) (h : Heap) (q : List ℚ) (limit : ℕ) (m : Memory),
      m ∈ st.objects h → m.embedding ≠ [] →
      (st.searchCandidates h q).length ≤ limit → m ∈ st.search h q limit) ∧
    (∀ q e : List ℚ, sumSquares q = 0 ∨ sumSquares e = 0 →
      (cosine_similarity q e).num = 0 ∧ Score.val_zero (cosine_similarity q e)) := by
  have hzero : ∀ q e : List ℚ, (cosine_similarity q e).num = 0 →
      Score.val_zero (cosine_similarity q e) := by
    intro q e h
    unfold Score.val_zero
    rw [h]
    simp
  refine ⟨?_, ?_, ?_, ?_⟩
  · intro st h q limit m hm
    unfold LongTermMemory.search at hm
    obtain ⟨x, hx, rfl⟩ := List.mem_map.mp hm
    have hx' : x ∈ st.searchRanked h q := List.take_subset limit _ hx
    have hx'' : x ∈ st.searchCandidates h q := (List.mem_insertionSort rankLE).mp hx'
    unfold LongTermMemory.searchCandidates at hx''
    obtain ⟨m', hm', rfl⟩ := List.mem_map.mp hx''
    have := (List.mem_filter.mp hm').2
    simpa using this
  · intro q e hlen
    have hnum : (cosine_similarity q e).num = 0 := by
      unfold cosine_similarity
      rw [if_pos hlen]
    exact ⟨hnum, hzero q e hnum⟩
  · intro st h q limit m hm hemb hlen
    have hm' : m ∈ (st.objects h).filter (fun m => !m.embedding.isEmpty) :=
      List.mem_filter.mpr ⟨hm, by simpa using hemb⟩
    have hx : (cosine_similarity q m.embedding, m) ∈ st.searchCandidates h q := by
      unfold LongTermMemory.searchCandidates
      exact List.mem_map.mpr ⟨m, hm', rfl⟩
    have hx' : (cosine_similarity q m.embedding, m) ∈ st.searchRanked h q :=
      (List.mem_insertionSort rankLE).mpr hx
    have hlenr : (st.searchRanked h q).length ≤ limit := by
      unfold LongTermMemory.searchRanked
      rw [List.length_insertionSort]
      exact hlen
    unfold LongTermMemory.search
    rw [List.take_of_length_le hlenr]
    exact List.mem_map.mpr ⟨(cosine_similarity q m.embedding, m), hx', rfl⟩
  · intro q e hs
    have hnum : (cosine_similarity q e).num = 0 := by
      unfold cosine_similarity
      by_cases hlen : q.length ≠ e.length
      · rw [if_pos hlen]
      · rw [if_neg hlen]
        simp only
        rw [dif_pos hs]
    exact ⟨hnum, hzero q e hnum⟩

/-- Witness for C6 (amended): the query `[1]` against the store holding only
the length-2-embedding record `exMismatch`: the record scores `0.0`, appears
in the results (one candidate ≤ limit 10), and every returned record has a
nonempty embedding; the empty vector has zero magnitude and scores `0.0`
against itself. -/
theorem C6_degenerate_scoring_witness :
    (exMismatch ∈ LongTermMemory.search ⟨[("x", 0)], none⟩ [exMismatch] [1] 10 →
      exMismatch.embedding ≠ []) ∧
    ((cosine_similarity [1] exMismatch.embedding).num = 0 ∧
      Score.val_zero (cosine_similarity [1] exMismatch.embedding)) ∧
    exMismatch ∈ LongTermMemory.search ⟨[("x", 0)], none⟩ [exMismatch] [1] 10 ∧
    ((cosine_similarity [] []).num = 0 ∧ Score.val_zero (cosine_similarity [] [])) :=
  ⟨C6_degenerate_scoring.1 ⟨[("x", 0)], none⟩ [exMismatch] [1] 10 exMismatch,
   C6_degenerate_scoring.2.1 [1] exMismatch.embedding (by decide),
   C6_degenerate_scoring.2.2.1 ⟨[("x", 0)], none⟩ [exMismatch] [1] 10 exMismatch
     (by decide) (by decide) (by decide),
   C6_degenerate_scoring.2.2.2 [] [] (Or.inl rfl)⟩

theorem dictGet_filter (l : List (String × ℕ)) (f : String × ℕ → Bool)
    (hnd : (l.map Prod.fst).Nodup) (p : String × ℕ) (hp : p ∈ l) (hf : f p = true) :
    dictGet p.1 (l.filter f) = some p.2 := by
  induction l with
  | nil => cases hp
  | cons q ps ih =>
    simp only [List.map_cons, List.nodup_cons] at hnd
    rcases List.mem_cons.mp hp with rfl | hp'
    · rw [List.filter_cons_of_pos hf]
      simp [dictGet]
    · have hq : q.1 ≠ p.1 := by
        intro he
        exact hnd.1 (he ▸ List.mem_map.mpr ⟨p, hp', rfl⟩)
      by_cases hfq : f q = true
      · rw [List.filter_cons_of_pos hfq]
        simp only [dictGet, hq, if_false]
        exact ih hnd.2 hp'
      · rw [List.filter_cons_of_neg (by simpa using hfq)]
        exact ih hnd.2 hp'

/-- **C7**: `cleanup_old` keeps exactly the records whose timestamp is not
strictly below `now - d` days (so it deletes exactly the strictly-older
ones); the returned count plus the survivors' count is the original count; a
record whose timestamp equals the cutoff is retained (exclusive boundary);
and, when ids are unique, every record at or after the cutoff is still found
under its id afterwards. -/
theorem C7_retention_boundary (st : LongTermMemory) (h : Heap) (now : ℚ) (d : ℕ) :
    (∀ p : String × ℕ, p ∈ (st.cleanup_old h now d).1.memories ↔
      p ∈ st.memories ∧ ¬ (hread h p.2).timestamp < now - 86400 * (d : ℚ)) ∧
    (st.cleanup_old h now d).2 + (st.cleanup_old h now d).1.memories.length =
      st.memories.length ∧
    (∀ p ∈ st.memories, (hread h p.2).timestamp = now - 86400 * (d : ℚ) →
      p ∈ (st.cleanup_old h now d).1.memories) ∧
    ((st.memories.map Prod.fst).Nodup →
      ∀ p ∈ st.memories, now - 86400 * (d : ℚ) ≤ (hread h p.2).timestamp →
      dictGet p.1 (st.cleanup_old h now d).1.memories = some p.2) := by
  have hmem : ∀ p : String × ℕ, p ∈ (st.cleanup_old h now d).1.memories ↔
      p ∈ st.memories ∧ ¬ (hread h p.2).timestamp < now - 86400 * (d : ℚ) := by
    intro p
    unfold LongTermMemory.cleanup_old
    simp
  refine ⟨hmem, ?_, ?_, ?_⟩
  · unfold LongTermMemory.cleanup_old
    simp only
    exact (List.length_eq_length_filter_add
      (fun p : String × ℕ =>
        decide ((hread h p.2).timestamp < now - 86400 * (d : ℚ)))).symm
  · intro p hp he
    exact (hmem p).mpr ⟨hp, by rw [he]; exact lt_irrefl _⟩
  · intro hnd p hp hts
    unfold LongTermMemory.cleanup_old
    simp only
    exact dictGet_filter st.memories _ hnd p hp (by simpa using not_lt.mpr hts)

/-- Records used by the retention witness: one 40-days-old record (strictly
below the cutoff) and one current record sitting exactly on it. -/
def exOld : Memory := ⟨"old", "s1", "co", [], -1, false⟩

def exNew : Memory := ⟨"new", "s1", "cn", [], 0, false⟩

/-- Witness for C7: `now = 86400 * 30` and a 30-day window put the cutoff at
timestamp `0`: the `-1` record is deleted, the boundary record survives and
is still found under its id. -/
theorem C7_retention_boundary_witness :
    (("new", 1) ∈
        (LongTermMemory.cleanup_old ⟨[("old", 0), ("new", 1)], none⟩ [exOld, exNew]
          (86400 * 30) 30).1.memories ↔
      ("new", 1) ∈ ([("old", 0), ("new", 1)] : List (String × ℕ)) ∧
      ¬ (hread [exOld, exNew] 1).timestamp < 86400 * 30 - 86400 * ((30 : ℕ) : ℚ)) ∧
    (LongTermMemory.cleanup_old ⟨[("old", 0), ("new", 1)], none⟩ [exOld, exNew]
        (86400 * 30) 30).2 +
      (LongTermMemory.cleanup_old ⟨[("old", 0), ("new", 1)], none⟩ [exOld, exNew]
        (86400 * 30) 30).1.memories.length = 2 ∧
    ("new", 1) ∈
      (LongTermMemory.cleanup_old ⟨[("old", 0), ("new", 1)], none⟩ [exOld, exNew]
        (86400 * 30) 30).1.memories ∧
    dictGet "new"
      (LongTermMemory.cleanup_old ⟨[("old", 0), ("new", 1)], none⟩ [exOld, exNew]
        (86400 * 30) 30).1.memories = some 1 :=
  have hC := C7_retention_boundary ⟨[("old", 0), ("new", 1)], none⟩ [exOld, exNew]
    (86400 * 30) 30
  ⟨hC.1 ("new", 1),
   hC.2.1,
   hC.2.2.1 ("new", 1) (by decide) (by simp [hread, exNew]),
   hC.2.2.2 (by decide) ("new", 1) (by decide) (by simp [hread, exNew])⟩

/-- Counterexample to **C8** as stated: the claim/spec says `get_recent`
returns exactly the last `min(limit, size)` records for *every* limit.  With
`limit = 0` the Python slice `[-0:]` is `[0:]`, so the source returns the
*entire* buffer: on a one-record buffer `get_recent 0` has length 1, not
`min 0 1 = 0`. -/
theorem C8_counterexample :
    ShortTermMemory.get_recent ⟨100, [7]⟩ 0 = [7] ∧
    ¬ (ShortTermMemory.get_recent ⟨100, [7]⟩ 0).length =
        min 0 (ShortTermMemory.memories ⟨100, [7]⟩).length :=
  ⟨rfl, by decide⟩

/-- **C8** (amended): for every `limit ≥ 1`, `get_recent` returns exactly the
last `min(limit, size)` records in insertion order (it is the suffix that
completes `take (size - limit)` to the whole buffer), and it does not mutate
the buffer (it is a pure read in the model); `get_recent 0` returns the
entire buffer. -/
theorem C8_get_recent (st : ShortTermMemory) (limit : ℕ) (hl : 1 ≤ limit) :
    (st.get_recent limit).length = min limit st.memories.length ∧
    st.memories.take (st.memories.length - limit) ++ st.get_recent limit = st.memories ∧
    st.get_recent 0 = st.memories := by
  have hne : limit ≠ 0 := by omega
  unfold ShortTermMemory.get_recent
  rw [if_neg hne, if_pos rfl]
  refine ⟨?_, List.take_append_drop _ _, rfl⟩
  rw [List.length_drop]
  omega

/-- Witness for C8: the spec scenario — a buffer holding `[1, 2, 3]`,
`get_recent 3` is the whole window. -/
theorem C8_get_recent_witness :
    (ShortTermMemory.get_recent ⟨3, [1, 2, 3]⟩ 3).length =
      min 3 (ShortTermMemory.memories ⟨3, [1, 2, 3]⟩).length ∧
    (ShortTermMemory.memories ⟨3, [1, 2, 3]⟩).take
        ((ShortTermMemory.memories ⟨3, [1, 2, 3]⟩).length - 3) ++
      ShortTermMemory.get_recent ⟨3, [1, 2, 3]⟩ 3 = [1, 2, 3] ∧
    ShortTermMemory.get_recent ⟨3, [1, 2, 3]⟩ 0 = [1, 2, 3] :=
  C8_get_recent ⟨3, [1, 2, 3]⟩ 3 (by decide)

/-- **C9**: when the Durable Store write inside `store_interaction` fails,
the error is surfaced to the caller (the result is the error), the long-term
tier and the heap are unchanged, and the Recency Buffer write is not rolled
back: the record is in the buffer and visible through
`get_conversation_history` for its session. -/
theorem C9_best_effort_dual_write (mm : MemoryManager) (h : Heap) (r : ℕ)
    (hcap : 1 ≤ mm.short_term.max_size)
    (hfail : mm.long_term.store h r = .error ()) :
    (mm.store_interaction h r).1 = .error () ∧
    (mm.store_interaction h r).2.1.long_term = mm.long_term ∧
    (mm.store_interaction h r).2.2 = h ∧
    r ∈ (mm.store_interaction h r).2.1.short_term.memories ∧
    r ∈ (mm.store_interaction h r).2.1.get_conversation_history h
      (hread h r).session_id := by
  have hmem : r ∈ (mm.short_term.add r).memories := by
    rw [ShortTermMemory.add_memories]
    exact mem_lastN_append_singleton hcap _ _
  unfold MemoryManager.store_interaction
  rw [hfail]
  refine ⟨rfl, rfl, rfl, hmem, ?_⟩
  unfold MemoryManager.get_conversation_history ShortTermMemory.get_by_session
  exact List.mem_filter.mpr ⟨hmem, by simp⟩

/-- Witness for C9: a cipher that always fails makes the durable write of a
sensitive record raise; the record is nevertheless in the buffer and in the
conversation history of its session. -/
theorem C9_best_effort_dual_write_witness :
    1 ≤ (MemoryManager.init (some failCipher)).short_term.max_size ∧
    ((MemoryManager.store_interaction (MemoryManager.init (some failCipher))
        [exSensitive] 0).1 = .error () ∧
      (MemoryManager.store_interaction (MemoryManager.init (some failCipher))
        [exSensitive] 0).2.1.long_term = (MemoryManager.init (some failCipher)).long_term ∧
      (MemoryManager.store_interaction (MemoryManager.init (some failCipher))
        [exSensitive] 0).2.2 = [exSensitive] ∧
      0 ∈ (MemoryManager.store_interaction (MemoryManager.init (some failCipher))
        [exSensitive] 0).2.1.short_term.memories ∧
      0 ∈ (MemoryManager.store_interaction (MemoryManager.init (some failCipher))
        [exSensitive] 0).2.1.get_conversation_history [exSensitive]
        (hread [exSensitive] 0).session_id) :=
  ⟨by decide,
   C9_best_effort_dual_write (MemoryManager.init (some failCipher)) [exSensitive] 0
     (by decide) rfl⟩

/-- **C10** (implicit): `search` is total — in the model it is a pure
function on the store (so it neither raises nor mutates): for every store,
query (including `[]`) and limit it yields a list of at most `limit` stored
records, and every similarity score it can ever build has a strictly
positive denominator (length mismatch and zero magnitude are guarded by
`0.0`, so no division by zero occurs). -/
theorem C10_search_total (st : LongTermMemory) (h : Heap) (q : List ℚ) (limit : ℕ) :
    (st.search h q limit).length ≤ limit ∧
    (∀ m, m ∈ st.search h q limit → m ∈ st.objects h) ∧
    (∀ a b : List ℚ, 0 < (cosine_similarity a b).den) := by
  refine ⟨?_, ?_, fun a b => (cosine_similarity a b).den_pos⟩
  · unfold LongTermMemory.search
    rw [List.length_map, List.length_take]
    exact min_le_left _ _
  · intro m hm
    unfold LongTermMemory.search at hm
    obtain ⟨x, hx, rfl⟩ := List.mem_map.mp hm
    have hx' : x ∈ st.searchCandidates h q :=
      (List.mem_insertionSort rankLE).mp (List.take_subset limit _ hx)
    unfold LongTermMemory.searchCandidates at hx'
    obtain ⟨m', hm', rfl⟩ := List.mem_map.mp hx'
    exact (List.mem_filter.mp hm').1

/-- Witness for C10: the one-record store with the empty query vector. -/
theorem C10_search_total_witness :
    (LongTermMemory.search ⟨[("a", 0)], none⟩ [exA] [] 10).length ≤ 10 ∧
    (exA ∈ LongTermMemory.search ⟨[("a", 0)], none⟩ [exA] [] 10 →
      exA ∈ LongTermMemory.objects ⟨[("a", 0)], none⟩ [exA]) ∧
    0 < (cosine_similarity [] [1]).den :=
  have hC := C10_search_total ⟨[("a", 0)], none⟩ [exA] [] 10
  ⟨hC.1, hC.2.1 exA, hC.2.2 [] [1]⟩
